import Mathlib

/-!
Verification of the reynard-validation JSON remediation core.

The definitions below are a shallow embedding of the two remediator
implementations found in the repository:

  * `JsonRemediator` (src/src/json-remediator.ts), the line-oriented
    multi-pass variant, modelled by the functions suffixed `JR`;
  * `JsonRemediatorFinal` (src/src/json-remediator-final.ts), the
    regex-global-replace variant, modelled by the functions suffixed `FR`.

JavaScript strings are modelled as `List Char` (the inputs of interest are
ASCII, where one JS UTF-16 code unit is one `Char`); the public entry
points wrap them into Lean `String`s.  The ECMAScript `JSON.parse`
collaborator is modelled by the executable strict parser `jsonParse`.
Regex global replaces are modelled by explicit left-to-right scanners that
advance one code unit after a failed match attempt and jump to the end of
a successful match, exactly as the JS regex engine does.  All recursion is
structural (on a list or on an explicit fuel counter), so every definition
evaluates inside the kernel.

Brace characters are written via `Char.ofNat` (`chrOpen` / `chrClose`) and
as escapes in string literals.
-/

namespace Reynard

/-- Opening curly brace character. -/
def chrOpen : Char := Char.ofNat 123

/-- Closing curly brace character. -/
def chrClose : Char := Char.ofNat 125

/-- JS regex word character class `\w` = `[A-Za-z0-9_]` (note: `$` is not a
word character, which matters for the `\b` boundaries of
`/\bundefined\b/g`). -/
def isWordChar (c : Char) : Bool :=
  (('a' ≤ c && c ≤ 'z') || ('A' ≤ c && c ≤ 'Z') || ('0' ≤ c && c ≤ '9') || c = '_')

/-- ASCII portion of the JS regex whitespace class `\s` and of
`String.prototype.trim` (space, tab, newline, vertical tab, form feed,
carriage return).  The repository inputs are ASCII. -/
def jsWs (c : Char) : Bool :=
  (c = ' ' || c = '\t' || c = '\n' || c = Char.ofNat 11 || c = Char.ofNat 12 || c = '\r')

/-- Characters allowed to start a JS identifier, per the unquoted property
name patterns `[a-zA-Z_$]`. -/
def identStart (c : Char) : Bool :=
  (('a' ≤ c && c ≤ 'z') || ('A' ≤ c && c ≤ 'Z') || c = '_' || c = '$')

/-- Characters allowed inside a JS identifier, per `[a-zA-Z0-9_$]`. -/
def identChar (c : Char) : Bool :=
  (identStart c || ('0' ≤ c && c ≤ '9'))

/-- Decimal digit test, for `\d`. -/
def isDigitChar (c : Char) : Bool := ('0' ≤ c && c ≤ '9')

/-- Split a leading run of characters satisfying `p` from the rest. -/
def spanP (p : Char → Bool) : List Char → List Char × List Char
  | [] => ([], [])
  | c :: cs =>
    if p c then
      let r := spanP p cs
      (c :: r.1, r.2)
    else ([], c :: cs)

/-- Leading-whitespace run of a line, as matched by `/^\s*/`. -/
def leadingWs (l : List Char) : List Char := (spanP jsWs l).1

/-- JS `String.prototype.trim` on ASCII text. -/
def jsTrim (l : List Char) : List Char :=
  ((((l.dropWhile jsWs).reverse).dropWhile jsWs).reverse)

/-- JS `String.prototype.endsWith` for a list pattern. -/
def endsWithL (l pat : List Char) : Bool := pat.isSuffixOf l

/-- JS `String.prototype.startsWith` for a list pattern. -/
def startsWithL (l pat : List Char) : Bool := pat.isPrefixOf l

/-- JS `String.prototype.includes` for a one-character pattern. -/
def containsC (l : List Char) (c : Char) : Bool := l.contains c

/-- Number of occurrences of character `c`, as counted by
`(s.match(/c/g) || []).length`. -/
def countC (l : List Char) (c : Char) : Nat := l.count c

/-- First index at which `needle` occurs in `hay` (JS `String.indexOf`),
scanning left to right with an explicit fuel counter. -/
def indexOfSubFuel (needle : List Char) : Nat → List Char → Option Nat
  | _, [] => if needle = [] then some 0 else none
  | 0, _ => none
  | fuel + 1, c :: cs =>
    if needle.isPrefixOf (c :: cs) then some 0
    else match indexOfSubFuel needle fuel cs with
      | some i => some (i + 1)
      | none => none

/-- JS `String.indexOf` on lists. -/
def indexOfSub (hay needle : List Char) : Option Nat :=
  indexOfSubFuel needle (hay.length + 1) hay

/-- JS `String.includes` on lists (general pattern). -/
def includesSub (hay needle : List Char) : Bool := (indexOfSub hay needle).isSome

/-- Split on newline characters, as JS `s.split("\n")` (the split of the
empty string is the singleton list holding the empty string). -/
def splitNl : List Char → List (List Char)
  | [] => [[]]
  | c :: cs =>
    if c = '\n' then [] :: splitNl cs
    else match splitNl cs with
      | [] => [[c]]
      | l :: ls => (c :: l) :: ls

/-- Join lines with newlines, as JS `lines.join("\n")`. -/
def joinNl : List (List Char) → List Char
  | [] => []
  | [l] => l
  | l :: ls => l ++ '\n' :: joinNl ls

end Reynard

namespace Reynard

/-! ## The strict JSON parser (the `JSON.parse` collaborator)

`JSON.parse` is external to the core (spec section 6); it is modelled here
as an executable recursive-descent parser for the ECMAScript JSON grammar:
values are objects, arrays, strings, numbers, `true`, `false`, `null`;
insignificant whitespace is space, tab, newline, carriage return; strings
accept the escapes `\" \\ \/ \b \f \n \r \t \uXXXX` and forbid raw control
characters below U+0020.  String contents are kept as lists of UTF-16 code
units (`Nat`); object fields keep source order and lookup takes the last
binding of a key, matching JS property assignment order. -/

/-- Parsed JSON values. Numbers keep their source lexeme. -/
inductive Json where
  | null : Json
  | bool : Bool → Json
  | num : List Char → Json
  | str : List Nat → Json
  | arr : List Json → Json
  | obj : List (List Nat × Json) → Json

/-- JSON insignificant whitespace (space, tab, line feed, carriage
return); narrower than the regex class `\s`. -/
def jsonWsChar (c : Char) : Bool :=
  (c = ' ' || c = '\t' || c = '\n' || c = '\r')

/-- Skip JSON insignificant whitespace. -/
def skipJsonWs (l : List Char) : List Char := l.dropWhile jsonWsChar

/-- Decode a hex digit (by code point: digits, lower-case letters,
upper-case letters). -/
def hexVal (c : Char) : Option Nat :=
  let n := c.toNat
  if 48 ≤ n && n ≤ 57 then some (n - 48)
  else if 97 ≤ n && n ≤ 102 then some (n - 87)
  else if 65 ≤ n && n ≤ 70 then some (n - 55)
  else none

/-- Parse the body of a JSON string after the opening quote, returning the
decoded UTF-16 code units and the rest of the input. -/
def parseStrBody : Nat → List Char → Option (List Nat × List Char)
  | 0, _ => none
  | _ + 1, [] => none
  | fuel + 1, c :: cs =>
    if c = '"' then some ([], cs)
    else if c = '\\' then
      match cs with
      | [] => none
      | e :: cs2 =>
        if e = '"' || e = '\\' || e = '/' then
          match parseStrBody fuel cs2 with
          | some (u, r) => some (e.toNat :: u, r)
          | none => none
        else if e = 'b' then (parseStrBody fuel cs2).map (fun p => (8 :: p.1, p.2))
        else if e = 'f' then (parseStrBody fuel cs2).map (fun p => (12 :: p.1, p.2))
        else if e = 'n' then (parseStrBody fuel cs2).map (fun p => (10 :: p.1, p.2))
        else if e = 'r' then (parseStrBody fuel cs2).map (fun p => (13 :: p.1, p.2))
        else if e = 't' then (parseStrBody fuel cs2).map (fun p => (9 :: p.1, p.2))
        else if e = 'u' then
          match cs2 with
          | h1 :: h2 :: h3 :: h4 :: cs3 =>
            match hexVal h1, hexVal h2, hexVal h3, hexVal h4 with
            | some a, some b, some c1, some d =>
              (parseStrBody fuel cs3).map
                (fun p => ((((a * 16 + b) * 16 + c1) * 16 + d) :: p.1, p.2))
            | _, _, _, _ => none
          | _ => none
        else none
    else if c.toNat < 32 then none
    else (parseStrBody fuel cs).map (fun p => (c.toNat :: p.1, p.2))

/-- Parse the digits of a JSON number after the optional sign: integer
part, optional fraction, optional exponent.  Returns the consumed lexeme
and the rest. -/
def parseNumTail (l : List Char) : Option (List Char × List Char) :=
  let intPart : Option (List Char × List Char) :=
    match l with
    | '0' :: r => some (['0'], r)
    | c :: r =>
      if isDigitChar c && c ≠ '0' then
        let d := spanP isDigitChar r
        some (c :: d.1, d.2)
      else none
    | [] => none
  match intPart with
  | none => none
  | some (ip, r1) =>
    let fracPart : Option (List Char × List Char) :=
      match r1 with
      | '.' :: r2 =>
        let d := spanP isDigitChar r2
        if d.1 = [] then none else some ('.' :: d.1, d.2)
      | _ => some ([], r1)
    match fracPart with
    | none => none
    | some (fp, r2) =>
      match r2 with
      | e :: r3 =>
        if e = 'e' || e = 'E' then
          let signed : List Char × List Char :=
            match r3 with
            | s :: r4 => if s = '+' || s = '-' then ([s], r4) else ([], r3)
            | [] => ([], r3)
          let d := spanP isDigitChar signed.2
          if d.1 = [] then none else some (ip ++ fp ++ e :: signed.1 ++ d.1, d.2)
        else some (ip ++ fp, r2)
      | [] => some (ip ++ fp, r2)

/-- Parsing mode for `parseCore`: a single value, the fields of an object
(after the opening brace), or the elements of an array (after the opening
bracket).  The `Bool` argument of the container modes is true right after
the opener, where an immediate closer yields the empty container. -/
inductive PMode where
  | val : PMode
  | objFields : PMode
  | arrElems : PMode
deriving DecidableEq, Repr

/-- Recursive-descent core of the JSON grammar.  All recursive calls spend
one unit of fuel, so the recursion is structural on `Nat` and the
definition evaluates inside the kernel. -/
def parseCore : Nat → PMode → List Char → Bool → Option (Json × List Char)
  | 0, _, _, _ => none
  | fuel + 1, PMode.val, l, _ =>
    match l with
    | [] => none
    | c :: cs =>
      if c = chrOpen then parseCore fuel PMode.objFields (skipJsonWs cs) true
      else if c = '[' then parseCore fuel PMode.arrElems (skipJsonWs cs) true
      else if c = '"' then
        match parseStrBody (cs.length + 1) cs with
        | some (u, r) => some (Json.str u, r)
        | none => none
      else if c = 't' then
        match cs with
        | 'r' :: 'u' :: 'e' :: r => some (Json.bool true, r)
        | _ => none
      else if c = 'f' then
        match cs with
        | 'a' :: 'l' :: 's' :: 'e' :: r => some (Json.bool false, r)
        | _ => none
      else if c = 'n' then
        match cs with
        | 'u' :: 'l' :: 'l' :: r => some (Json.null, r)
        | _ => none
      else if c = '-' then
        match parseNumTail cs with
        | some (lex, r) => some (Json.num ('-' :: lex), r)
        | none => none
      else
        match parseNumTail (c :: cs) with
        | some (lex, r) => some (Json.num lex, r)
        | none => none
  | fuel + 1, PMode.objFields, l, first =>
    match l with
    | c :: cs =>
      if first && c = chrClose then some (Json.obj [], cs)
      else if c = '"' then
        match parseStrBody (cs.length + 1) cs with
        | none => none
        | some (key, r1) =>
          match skipJsonWs r1 with
          | ':' :: r2 =>
            match parseCore fuel PMode.val (skipJsonWs r2) true with
            | none => none
            | some (v, r3) =>
              match skipJsonWs r3 with
              | ',' :: r4 =>
                match parseCore fuel PMode.objFields (skipJsonWs r4) false with
                | some (Json.obj fs, r5) => some (Json.obj ((key, v) :: fs), r5)
                | _ => none
              | c2 :: r4 =>
                if c2 = chrClose then some (Json.obj [(key, v)], r4) else none
              | [] => none
          | _ => none
      else none
    | [] => none
  | fuel + 1, PMode.arrElems, l, first =>
    match l with
    | c :: cs =>
      if first && c = ']' then some (Json.arr [], cs)
      else
        match parseCore fuel PMode.val (c :: cs) true with
        | none => none
        | some (v, r1) =>
          match skipJsonWs r1 with
          | ',' :: r2 =>
            match parseCore fuel PMode.arrElems (skipJsonWs r2) false with
            | some (Json.arr vs, r3) => some (Json.arr (v :: vs), r3)
            | _ => none
          | ']' :: r2 => some (Json.arr [v], r2)
          | _ => none
    | [] => none

/-- Model of `JSON.parse`: parse a full JSON text (one value surrounded by
optional whitespace); `none` models the thrown `SyntaxError`. -/
def jsonParseL (l : List Char) : Option Json :=
  let body := skipJsonWs l
  match parseCore (3 * body.length + 8) PMode.val body true with
  | some (v, rest) => if skipJsonWs rest = [] then some v else none
  | none => none

/-- Model of `JSON.parse` on Lean strings. -/
def jsonParse (s : String) : Option Json := jsonParseL s.data

end Reynard

namespace Reynard

/-! ## JsonRemediator (line-oriented variant): diagnostics and passes -/

/-- Diagnostic record pushed by `JsonRemediator` passes, mirroring the
`JsonSyntaxError` interface (`type`, `line`, `column`, `description`,
`fix`). -/
structure JsonSyntaxError where
  type : String
  line : Nat
  column : Nat
  description : String
  fix : String
deriving DecidableEq, Repr

/-- Outcome of one `JsonRemediator.remediate` call, mirroring
`JsonRemediationResult` (`fixedJson` is set on every return path of the
source, so it is not optional here). -/
structure JsonRemediationResult where
  success : Bool
  fixedJson : String
  errors : List JsonSyntaxError
  unfixableErrors : List String
deriving DecidableEq, Repr

/-- Match attempt of `/^(\s*)([a-zA-Z_$][a-zA-Z0-9_$]*)\s*:/` at one
position: on success returns the replacement text
`indent + quoted name + colon` (the whitespace between the name and the
colon is not re-emitted, as in the source template), the bare name, and
the input remaining after the matched colon. -/
def fmqTry (l : List Char) : Option (List Char × List Char × List Char) :=
  let s1 := spanP jsWs l
  match s1.2 with
  | c :: r2 =>
    if identStart c then
      let s2 := spanP identChar r2
      let name := c :: s2.1
      let s3 := spanP jsWs s2.2
      match s3.2 with
      | ':' :: r5 => some (s1.1 ++ '"' :: (name ++ '"' :: [':']), name, r5)
      | _ => none
    else none
  | [] => none

/-- Diagnostic pushed for one unquoted property name. -/
def mqErr (name : List Char) : JsonSyntaxError :=
  ⟨"missing-quote", 0, 0,
    "Missing quotes around property name: " ++ String.mk name,
    "Added quotes around property name: \"" ++ String.mk name ++ "\""⟩

/-- Global multiline scan of the unquoted-property-name pattern: a match
may only start where `^` (with the `m` flag) matches, i.e. at the start of
the text or right after a newline; a failed attempt advances one
character; a successful match resumes right after the matched colon. -/
def fmqScan : Nat → Bool → List Char → List Char × List JsonSyntaxError
  | 0, _, l => (l, [])
  | _ + 1, _, [] => ([], [])
  | fuel + 1, atStart, c :: cs =>
    if atStart then
      match fmqTry (c :: cs) with
      | some (em, name, rest) =>
        let r := fmqScan fuel false rest
        (em ++ r.1, mqErr name :: r.2)
      | none =>
        let r := fmqScan fuel (c = '\n') cs
        (c :: r.1, r.2)
    else
      let r := fmqScan fuel (c = '\n') cs
      (c :: r.1, r.2)

/-- Model of `JsonRemediator.fixMissingQuotes`. -/
def fixMissingQuotesJR (l : List Char) : List Char × List JsonSyntaxError :=
  fmqScan (l.length + 1) true l

/-- Escape characters accepted by the lookahead of
`/(?<!\\)\\(?!["\\/bfnrt])/` — note the source class has eight characters
and does not contain `u`. -/
def validEscHead : List Char → Bool
  | [] => false
  | e :: _ => (e = '"' || e = '\\' || e = '/' || e = 'b' || e = 'f' || e = 'n' || e = 'r' || e = 't')

/-- Scanner for `JsonRemediator.fixInvalidEscapes`: a backslash whose
predecessor in the original text is not a backslash and whose successor is
not one of the eight accepted escape characters (or which ends the text)
is doubled.  The source pushes no diagnostic in this pass. -/
def fieScan : List Char → Bool → List Char
  | [], _ => []
  | c :: cs, prevBS =>
    if c = '\\' then
      if !prevBS && !validEscHead cs then '\\' :: '\\' :: fieScan cs true
      else '\\' :: fieScan cs true
    else c :: fieScan cs false

/-- Model of `JsonRemediator.fixInvalidEscapes`. -/
def fixInvalidEscapesJR (l : List Char) : List Char := fieScan l false

/-- The characters of the word `undefined`. -/
def undefChars : List Char := ['u', 'n', 'd', 'e', 'f', 'i', 'n', 'e', 'd']

/-- Whether the head of a list is a `\w` word character. -/
def headIsWord : List Char → Bool
  | [] => false
  | c :: _ => isWordChar c

/-- Whether `/\bundefined\b/` matches exactly at the head of `l`, assuming
the preceding character (tracked separately) is not a word character: the
next nine characters spell `undefined` and the following character, if
any, is not a word character. -/
def atSite (l : List Char) : Bool :=
  decide (l.take 9 = undefChars) && !headIsWord (l.drop 9)

/-- Scanner for `fixed.replace(/\bundefined\b/g, "null")`: `p` records
whether the previous character of the original text is a word character;
after a match the scan resumes past the matched word (whose last original
character `d` is a word character). -/
def replUF : Nat → Bool → List Char → List Char
  | 0, _, l => l
  | _ + 1, _, [] => []
  | fuel + 1, p, c :: cs =>
    if !p && atSite (c :: cs) then
      'n' :: 'u' :: 'l' :: 'l' :: replUF fuel true (cs.drop 8)
    else c :: replUF fuel (isWordChar c) cs

/-- The `undefined` → `null` rewrite of
`JsonRemediator.fixMalformedStructures`. -/
def replaceUndefined (l : List Char) : List Char := replUF l.length false l

/-- Boolean scanner deciding that no position of `l` carries a
`/\bundefined\b/` match (`p` is the word-ness of the preceding
character). -/
def noSite (p : Bool) : List Char → Bool
  | [] => true
  | c :: cs => (p || !atSite (c :: cs)) && noSite (isWordChar c) cs

/-- No standalone `undefined` word occurs in the string. -/
def noSiteStr (s : String) : Bool := noSite false s.data

/-- Builds `n` copies of `piece`, as appended by the closing loops of
`fixMalformedStructures`. -/
def repList (piece : List Char) : Nat → List Char
  | 0 => []
  | n + 1 => piece ++ repList piece n

/-- Diagnostic pushed per appended closing brace. -/
def mObjErr : JsonSyntaxError :=
  ⟨"malformed-object", 0, 0, "Missing closing brace", "Added missing closing brace"⟩

/-- Diagnostic pushed per appended closing bracket. -/
def mArrErr : JsonSyntaxError :=
  ⟨"malformed-array", 0, 0, "Missing closing bracket", "Added missing closing bracket"⟩

/-- Model of `JsonRemediator.fixMalformedStructures`: count brace and bracket
deficits (a surplus of closers yields a non-positive JS difference, whose
loop does not run — `Nat` truncated subtraction models this exactly),
append a newline and a closing brace once per missing brace, then a
newline and a closing bracket once per missing
bracket, then rewrite standalone `undefined` words to `null`. -/
def fixMalformedStructuresJR (l : List Char) : List Char × List JsonSyntaxError :=
  let bDef := countC l chrOpen - countC l chrClose
  let kDef := countC l '[' - countC l ']'
  let s2 := (l ++ repList ['\n', chrClose] bDef) ++ repList ['\n', ']'] kDef
  (replaceUndefined s2, List.replicate bDef mObjErr ++ List.replicate kDef mArrErr)

end Reynard

namespace Reynard

/-! ## JsonRemediator: missing-comma pass -/

/-- Test of `/^\d/` on a line. -/
def headIsDigit : List Char → Bool
  | [] => false
  | c :: _ => isDigitChar c

/-- Re-assemble a line after appending one character to its trimmed form,
as `indent + trimmed + ","` where
`indent = line.substring(0, line.length - trimmed.length)`. -/
def reAppend (line trimmed : List Char) (extra : Char) : List Char :=
  line.take (line.length - trimmed.length) ++ trimmed ++ [extra]

/-- One line of `JsonRemediator.fixMissingCommas`: the four sequential
checks of the source, each reading the line as updated by the previous
check and the unmodified next source line. -/
def fmcLine (lineNo : Nat) (line0 next : List Char) : List Char × List JsonSyntaxError :=
  let nt := jsTrim next
  -- check 1: property line (has a colon) not ending in a comma or opener,
  -- followed by a sibling quoted property at the same indentation
  let t0 := jsTrim line0
  let s1 : List Char × List JsonSyntaxError :=
    if containsC line0 ':' && !endsWithL t0 [','] && !endsWithL t0 [chrOpen] then
      if startsWithL nt ['"'] && containsC nt ':' then
        if (leadingWs next).length = (leadingWs line0).length then
          let nl := reAppend line0 t0 ','
          (nl, [⟨"missing-comma", lineNo, nl.length,
            "Missing comma after property value", "Added comma after property value"⟩])
        else (line0, [])
      else (line0, [])
    else (line0, [])
  let line1 := s1.1
  -- check 2: line ending in a closer, followed by a quoted property
  let t1 := jsTrim line1
  let s2 : List Char × List JsonSyntaxError :=
    if (endsWithL t1 [chrClose] || endsWithL t1 [']']) && !endsWithL t1 [','] then
      if startsWithL nt ['"'] && containsC nt ':' then
        let nl := reAppend line1 t1 ','
        (nl, [⟨"missing-comma", lineNo, nl.length,
          "Missing comma after object/array", "Added comma after object/array"⟩])
      else (line1, [])
    else (line1, [])
  let line2 := s2.1
  -- check 3: closer-only line followed by a property at the same or a
  -- shallower indentation
  let t2 := jsTrim line2
  let s3 : List Char × List JsonSyntaxError :=
    if (t2 = [chrClose] || t2 = [']']) && !endsWithL t2 [','] then
      if startsWithL nt ['"'] && containsC nt ':' then
        if (leadingWs next).length ≤ (leadingWs line2).length then
          let nl := reAppend line2 t2 ','
          (nl, [⟨"missing-comma", lineNo, nl.length,
            "Missing comma after object/array", "Added comma after object/array"⟩])
        else (line2, [])
      else (line2, [])
    else (line2, [])
  let line3 := s3.1
  -- check 4: array-element line followed by a non-closer line
  let t3 := jsTrim line3
  let s4 : List Char × List JsonSyntaxError :=
    if t3 ≠ [] && !endsWithL t3 [','] && !endsWithL t3 ['['] && !endsWithL t3 [']'] &&
        !endsWithL t3 [chrOpen] then
      if nt ≠ [] && !startsWithL nt [']'] && !startsWithL nt [chrClose] then
        if t3 ≠ [] && !containsC t3 ':' &&
            (startsWithL t3 ['"'] || headIsDigit t3 || t3 = ['t', 'r', 'u', 'e'] ||
              t3 = ['f', 'a', 'l', 's', 'e'] || t3 = ['n', 'u', 'l', 'l']) then
          let nl := reAppend line3 t3 ','
          (nl, [⟨"missing-comma", lineNo, nl.length,
            "Missing comma after array element", "Added comma after array element"⟩])
        else (line3, [])
      else (line3, [])
    else (line3, [])
  (s4.1, s1.2 ++ s2.2 ++ s3.2 ++ s4.2)

/-- Fold `fmcLine` over the split lines, each line seeing the unmodified
next line, with 1-based line numbers. -/
def fmcGo : Nat → List (List Char) → List (List Char) × List JsonSyntaxError
  | _, [] => ([], [])
  | n, l :: rest =>
    let nx := rest.head?.getD []
    let r1 := fmcLine n l nx
    let r2 := fmcGo (n + 1) rest
    (r1.1 :: r2.1, r1.2 ++ r2.2)

/-- Model of `JsonRemediator.fixMissingCommas`. -/
def fixMissingCommasJR (l : List Char) : List Char × List JsonSyntaxError :=
  let r := fmcGo 1 (splitNl l)
  (joinNl r.1, r.2)

end Reynard

namespace Reynard

/-! ## JsonRemediator: trailing-comma pass (three phases) -/

/-- The diagnostic text shared by all trailing-comma removals. -/
def tcErr (line column : Nat) : JsonSyntaxError :=
  ⟨"trailing-comma", line, column,
    "Trailing comma before closing brace/bracket", "Removed trailing comma"⟩

/-- First match of `/^(\s*)(.*?),\s*([}\]])/` on a line: the first comma
that is followed (over whitespace) by a closer.  Returns the text before
that comma and the closer.  On a match the source rebuilds the line from
the three groups only, discarding everything after the matched closer. -/
def fccScan : List Char → Option (List Char × Char)
  | [] => none
  | c :: cs =>
    (if c = ',' then
      let s := spanP jsWs cs
      match s.2 with
      | b :: _ =>
        if b = chrClose || b = ']' then some ([], b)
        else (fccScan cs).map (fun r => (c :: r.1, r.2))
      | [] => (fccScan cs).map (fun r => (c :: r.1, r.2))
    else (fccScan cs).map (fun r => (c :: r.1, r.2)))

/-- Forward phase of `JsonRemediator.fixTrailingCommas`: per line, the
in-line regex rewrite, the `},`/`],` ending check (deciding against the
unmodified next source line by shape and indentation), and the
closer-only check that strips a trailing comma from the previous line as
re-read from the unmodified source (`lines[i-1]`), overwriting whatever
was already pushed for that line. -/
def ftcAGo : Nat → Option (List Char) → List (List Char) → List (List Char) →
    List (List Char) × List JsonSyntaxError
  | _, _, [], accRev => (accRev.reverse, [])
  | i, prevOrig, line0 :: rest, accRev =>
    let nx := rest.head?.getD []
    -- step 1: first-match regex rewrite
    let s1 : List Char × List JsonSyntaxError :=
      match fccScan line0 with
      | some (pre, b) => (pre ++ [b], [tcErr (i + 1) (pre.length + 1)])
      | none => (line0, [])
    let line1 := s1.1
    -- step 2: line ends with `},` or `],`
    let t1 := jsTrim line1
    let s2 : List Char × List JsonSyntaxError :=
      if endsWithL t1 [','] && (endsWithL t1 [chrClose, ','] || endsWithL t1 [']', ',']) then
        let ntr := jsTrim nx
        if ntr ≠ [] && startsWithL ntr ['"'] && containsC ntr ':' &&
            (leadingWs nx).length ≤ (leadingWs line1).length then
          (line1, [])
        else
          let nl := line1.take (line1.length - t1.length) ++ t1.dropLast
          (nl, [tcErr (i + 1) (nl.length + 1)])
      else (line1, [])
    let line2 := s2.1
    -- step 3: closer-only line strips a comma from the previous source line
    let t2 := jsTrim line2
    let s3 : List (List Char) × List JsonSyntaxError :=
      if (t2 = [chrClose] || t2 = [']']) && i > 0 then
        match prevOrig with
        | some pl =>
          let pt := jsTrim pl
          if endsWithL pt [','] then
            let fixedPrev := pl.take (pl.length - pt.length) ++ pt.dropLast
            (match accRev with
              | [] => ([], [tcErr i pl.length])
              | _ :: tl => (fixedPrev :: tl, [tcErr i pl.length]))
          else (accRev, [])
        | none => (accRev, [])
      else (accRev, [])
    let r := ftcAGo (i + 1) (some line0) rest (line2 :: s3.1)
    (r.1, s1.2 ++ s2.2 ++ s3.2 ++ r.2)

/-- Scan below index `i` for the nearest line whose trim is non-empty
(the `break` of the source stops at the first such line). -/
def findPrevNE (ls : List (List Char)) : Nat → Option Nat
  | 0 => none
  | j + 1 => if jsTrim (ls.getD j []) ≠ [] then some j else findPrevNE ls j

/-- One index of the reverse phase: if the line at `i` is a lone closer,
strip a trailing comma from the nearest previous non-empty line (which may
itself have been rewritten by a later-indexed step of this phase). -/
def ftcBStep (ls : List (List Char)) (i : Nat) : List (List Char) × List JsonSyntaxError :=
  let cur := ls.getD i []
  if jsTrim cur = [chrClose] || jsTrim cur = [']'] then
    match findPrevNE ls i with
    | some j =>
      let pl := ls.getD j []
      let pt := jsTrim pl
      if endsWithL pt [','] then
        (ls.set j (pl.take (pl.length - pt.length) ++ pt.dropLast), [tcErr (j + 1) pl.length])
      else (ls, [])
    | none => (ls, [])
  else (ls, [])

/-- Reverse phase of `fixTrailingCommas`, walking indices from high to
low over the mutable line array. -/
def ftcBGo (ls : List (List Char)) : Nat → List (List Char) × List JsonSyntaxError
  | 0 => ftcBStep ls 0
  | i + 1 =>
    let r := ftcBStep ls (i + 1)
    let r2 := ftcBGo r.1 i
    (r2.1, r.2 ++ r2.2)

/-- Final phase of `fixTrailingCommas`: the global regex
`/,(\s*[}\]])/g`, dropping each comma and keeping the whitespace and
closer, resuming after the closer.  Returns the text and the number of
removals (each removal pushes an identical `line 0, column 0`
diagnostic). -/
def ftcCScan : Nat → List Char → List Char × Nat
  | 0, l => (l, 0)
  | _ + 1, [] => ([], 0)
  | fuel + 1, c :: cs =>
    if c = ',' then
      let s := spanP jsWs cs
      match s.2 with
      | b :: r3 =>
        if b = chrClose || b = ']' then
          let r := ftcCScan fuel r3
          (s.1 ++ b :: r.1, r.2 + 1)
        else
          let r := ftcCScan fuel cs
          (c :: r.1, r.2)
      | [] =>
        let r := ftcCScan fuel cs
        (c :: r.1, r.2)
    else
      let r := ftcCScan fuel cs
      (c :: r.1, r.2)

/-- Model of `JsonRemediator.fixTrailingCommas`. -/
def fixTrailingCommasJR (l : List Char) : List Char × List JsonSyntaxError :=
  let lines := splitNl l
  let a := ftcAGo 0 none lines []
  let b :=
    match lines.length with
    | 0 => (a.1, ([] : List JsonSyntaxError))
    | n + 1 =>
      let _ := n
      ftcBGo a.1 (a.1.length - 1)
  let joined := joinNl b.1
  let c := ftcCScan (joined.length + 1) joined
  (c.1, a.2 ++ b.2 ++ List.replicate c.2 (tcErr 0 0))

end Reynard

namespace Reynard

/-! ## JsonRemediator: convergence driver and entry points -/

/-- One full pass sequence of `JsonRemediator.fixJsonSyntax`:
quotes, missing commas, trailing commas, escapes (which pushes no
diagnostics), malformed structures. -/
def pipeOnceJR (l : List Char) : List Char × List JsonSyntaxError :=
  let q := fixMissingQuotesJR l
  let mc := fixMissingCommasJR q.1
  let tc := fixTrailingCommasJR mc.1
  let esc := fixInvalidEscapesJR tc.1
  let ms := fixMalformedStructuresJR esc
  (ms.1, q.2 ++ mc.2 ++ tc.2 ++ ms.2)

/-- Text component of one pass sequence. -/
def pipeTextJR (l : List Char) : List Char := (pipeOnceJR l).1

/-- The `while (fixed !== previousFixed && iterations < maxIterations)`
loop of `fixJsonSyntax`, with the remaining iteration budget as fuel
(`maxIterations = 5`) and `previousFixed` initialized to the empty
string. -/
def fixLoopJR : Nat → List Char → List Char → List Char × List JsonSyntaxError
  | 0, _, cur => (cur, [])
  | fuel + 1, prev, cur =>
    if cur = prev then (cur, [])
    else
      let p := pipeOnceJR cur
      let r := fixLoopJR fuel cur p.1
      (r.1, p.2 ++ r.2)

/-- Model of `JsonRemediator.fixJsonSyntax`. -/
def fixJsonSyntaxJR (l : List Char) : List Char × List JsonSyntaxError :=
  fixLoopJR 5 [] l

/-- Modelled from the spec: on a final strict-parse failure
`unfixableReasons` gains one entry derived from the message of the error
thrown by the underlying engine parser (spec section 4.5).  The engine
message text itself is not part of the repository, so it is abstracted to
a fixed placeholder; no claim depends on its content. -/
def jsEngineParseErrorMessage : String := "SyntaxError"

/-- Modelled from the spec: the message of the TypeError thrown by a
property access on a parsed null value; abstracted to a placeholder, no
claim depends on its content. -/
def jsNullAccessMessage : String := "TypeError"

/-- The helpful-message rewriting of `JsonRemediator.remediate`, keyed on
substrings of the engine error message. -/
def helpfulMessage (msg : String) : String :=
  if includesSub msg.data "Expected property name".data then
    "Invalid JSON structure - check for missing quotes around property names or malformed objects"
  else if includesSub msg.data "Unexpected token".data then
    "Unexpected character found - check for invalid syntax or missing commas"
  else if includesSub msg.data "Unexpected end".data then
    "JSON appears to be truncated - check for missing closing braces or brackets"
  else msg

/-- The single unfixable entry pushed when the strict parse still fails
after remediation. -/
def remediationFailMsg : String :=
  "Failed to parse after remediation: " ++ helpfulMessage jsEngineParseErrorMessage

/-- Model of `JsonRemediator.remediate`: return immediately on valid input with
fresh empty diagnostic lists; otherwise run the fix pipeline and parse
the result, reporting the accumulated diagnostics either way. -/
def remediateJR (s : String) : JsonRemediationResult :=
  match jsonParse s with
  | some _ => ⟨true, s, [], []⟩
  | none =>
    let f := fixJsonSyntaxJR s.data
    let fixedStr := String.mk f.1
    match jsonParse fixedStr with
    | some _ => ⟨true, fixedStr, f.2, []⟩
    | none => ⟨false, fixedStr, f.2, [remediationFailMsg]⟩

/-- UTF-16 code units of an ASCII key. -/
def strUnits (s : String) : List Nat := s.data.map Char.toNat

/-- JS property lookup on a parsed JSON value: the last binding of the
key in an object, nothing on any other value. -/
def getFieldJson : Json → List Nat → Option Json
  | Json.obj fs, key => (fs.reverse.find? (fun p => p.1 == key)).map (fun p => p.2)
  | _, _ => none

/-- Whether a JSON number lexeme denotes zero: all mantissa digits are 0
(the exponent part cannot make a nonzero mantissa zero). -/
def numIsZero (lex : List Char) : Bool :=
  ((lex.takeWhile (fun c => !(c = 'e' || c = 'E'))).filter isDigitChar).all (fun c => c = '0')

/-- JS truthiness of a property-access result (`undefined`, `null`,
`false`, zero and the empty string are falsy). -/
def jsTruthy : Option Json → Bool
  | none => false
  | some Json.null => false
  | some (Json.bool b) => b
  | some (Json.str u) => !u.isEmpty
  | some (Json.num lex) => !numIsZero lex
  | some (Json.arr _) => true
  | some (Json.obj _) => true

/-- Digit test on a UTF-16 code unit. -/
def isUnitDigit (n : Nat) : Bool := 48 ≤ n && n ≤ 57

/-- Split a leading digit run from a code-unit list. -/
def spanUnitDigits : List Nat → List Nat × List Nat
  | [] => ([], [])
  | n :: ns =>
    if isUnitDigit n then
      let r := spanUnitDigits ns
      (n :: r.1, r.2)
    else ([], n :: ns)

/-- The test `/^\d+\.\d+\.\d+/` on a code-unit string (46 is the dot). -/
def semverPrefixU (u : List Nat) : Bool :=
  match spanUnitDigits u with
  | ([], _) => false
  | (_ :: _, 46 :: r1) =>
    match spanUnitDigits r1 with
    | ([], _) => false
    | (_ :: _, 46 :: r2) => !(spanUnitDigits r2).1.isEmpty
    | (_ :: _, _) => false
  | (_ :: _, _) => false

/-- The version-format test applied to `parsed.version`.  For a string
value this is the source regex test; a JSON number lexeme never carries
two dots, and booleans and containers stringify without a leading
`d+.d+.d+` shape, so those coerced cases are false (the JS string
coercion of containers is approximated; no claim exercises a non-string
version). -/
def versionFormatOk : Json → Bool
  | Json.str u => semverPrefixU u
  | Json.num lex => semverPrefixU (lex.map Char.toNat)
  | _ => false

/-- The message pushed when the package.json validation body throws. -/
def pkgValidationFailedMsg (e : String) : String :=
  "Package.json validation failed: " ++ e

/-- The three manifest field checks of `remediatePackageJson`, in source
order (name presence, version presence, version format). -/
def manifestFieldIssues (v : Json) : List String :=
  let nameF := getFieldJson v (strUnits "name")
  let verF := getFieldJson v (strUnits "version")
  (if jsTruthy nameF then [] else ["Missing required field: name"]) ++
    (if jsTruthy verF then [] else ["Missing required field: version"]) ++
      (if jsTruthy verF && !versionFormatOk (verF.getD Json.null) then
        ["Invalid version format. Expected semantic version (e.g., 1.0.0)"]
      else [])

/-- Manifest checks as they land in the instance buffer: a parsed null
value throws on the first property access, so the catch pushes the
validation-failed message instead of any field issue. -/
def manifestUnfixable : Json → List String
  | Json.null => [pkgValidationFailedMsg jsNullAccessMessage]
  | v => manifestFieldIssues v

/-- Model of `JsonRemediator.remediatePackageJson`.  On already-valid input the
inner `remediate` returned literal fresh empty arrays, so the manifest
messages — pushed onto `this.unfixableErrors` — are not part of the
returned result; on the fixed-then-parsed path the returned
`unfixableErrors` aliases the instance buffer and the pushes are
visible. -/
def remediatePackageJsonJR (s : String) : JsonRemediationResult :=
  match jsonParse s with
  | some _ => ⟨true, s, [], []⟩
  | none =>
    let f := fixJsonSyntaxJR s.data
    let fixedStr := String.mk f.1
    match jsonParse fixedStr with
    | some v => ⟨true, fixedStr, f.2, manifestUnfixable v⟩
    | none => ⟨false, fixedStr, f.2, [remediationFailMsg]⟩

/-! ## Exception model

`JSON.parse` and the property access on a parsed null are the only
throwing operations of the core; the `Except` layer below mirrors the
try/catch placement of the source, so that provably never returning
`Except.error` is exactly the no-throw guarantee of the spec. -/

/-- A JS `try` block with its `catch` handler. -/
def tryCatchE {α : Type} (x : Except String α) (h : String → Except String α) :
    Except String α :=
  match x with
  | Except.ok a => Except.ok a
  | Except.error e => h e

/-- Model of `JSON.parse` as a throwing operation. -/
def jsonParseE (s : String) : Except String Json :=
  match jsonParse s with
  | some v => Except.ok v
  | none => Except.error jsEngineParseErrorMessage

/-- Model of `JsonRemediator.remediate` with explicit exceptions: both
`JSON.parse` calls sit inside try/catch, exactly as in the source. -/
def remediateE (s : String) : Except String JsonRemediationResult :=
  tryCatchE
    (match jsonParseE s with
      | Except.error e => Except.error e
      | Except.ok _ => Except.ok (⟨true, s, [], []⟩ : JsonRemediationResult))
    (fun _ =>
      let f := fixJsonSyntaxJR s.data
      let fixedStr := String.mk f.1
      tryCatchE
        (match jsonParseE fixedStr with
          | Except.error e => Except.error e
          | Except.ok _ =>
            Except.ok (⟨true, fixedStr, f.2, []⟩ : JsonRemediationResult))
        (fun e =>
          Except.ok (⟨false, fixedStr, f.2,
            ["Failed to parse after remediation: " ++ helpfulMessage e]⟩ :
            JsonRemediationResult)))

/-- Manifest-check update on the fixed-then-parsed path versus the
already-valid path (where the instance buffer is not aliased by the
returned result). -/
def withManifestE (s : String) (r : JsonRemediationResult) (v : Json) :
    JsonRemediationResult :=
  match jsonParse s with
  | some _ => r
  | none => { r with unfixableErrors := r.unfixableErrors ++ manifestFieldIssues v }

/-- Catch-handler update of `remediatePackageJson`, with the same
aliasing distinction. -/
def withCatchE (s : String) (r : JsonRemediationResult) (e : String) :
    JsonRemediationResult :=
  match jsonParse s with
  | some _ => r
  | none => { r with unfixableErrors := r.unfixableErrors ++ [pkgValidationFailedMsg e] }

/-- Model of `JsonRemediator.remediatePackageJson` with explicit exceptions: the
validation body (a `JSON.parse` plus field accesses that throw on null)
sits inside try/catch. -/
def remediatePackageJsonE (s : String) : Except String JsonRemediationResult :=
  match remediateE s with
  | Except.error e => Except.error e
  | Except.ok r =>
    if r.success then
      tryCatchE
        (match jsonParseE r.fixedJson with
          | Except.error e => Except.error e
          | Except.ok Json.null => Except.error jsNullAccessMessage
          | Except.ok v => Except.ok (withManifestE s r v))
        (fun e => Except.ok (withCatchE s r e))
    else Except.ok r

end Reynard

namespace Reynard

/-! ## JsonRemediatorFinal (regex-global-replace variant) -/

/-- Diagnostic record of `JsonRemediatorFinal` (`type`, `line`,
`description`). -/
structure FinalError where
  type : String
  line : Nat
  description : String
deriving DecidableEq, Repr

/-- Outcome of `JsonRemediatorFinal.remediate`. -/
structure FinalResult where
  success : Bool
  fixedJson : String
  errors : List FinalError
  unfixableErrors : List String
deriving DecidableEq, Repr

/-- The shared missing-comma diagnostic of the final variant. -/
def frMcErr : FinalError := ⟨"missing-comma", 0, "Missing comma between properties"⟩

/-- Match attempt of pattern 1, `/(":\s*"[^"]*")\s*(")/`, at one position:
returns group 1, the full matched text, and the rest after the matched
second quote. -/
def frP1Try (l : List Char) : Option (List Char × List Char × List Char) :=
  match l with
  | '"' :: ':' :: r1 =>
    let s1 := spanP jsWs r1
    match s1.2 with
    | '"' :: r3 =>
      let s2 := spanP (fun c => !(c = '"')) r3
      match s2.2 with
      | '"' :: r5 =>
        let p1 := '"' :: ':' :: (s1.1 ++ '"' :: (s2.1 ++ ['"']))
        let s3 := spanP jsWs r5
        match s3.2 with
        | '"' :: r7 => some (p1, p1 ++ s3.1 ++ ['"'], r7)
        | _ => none
      | _ => none
    | _ => none
  | _ => none

/-- Global scan of pattern 1.  The callback re-locates the matched text
with `fixed.indexOf(match)` — the first occurrence of the matched
characters in the whole pre-replace string, not necessarily the match
position — and only inserts the comma when a colon occurs after that
first occurrence. -/
def frP1Scan (orig : List Char) : Nat → List Char → List Char × Nat
  | 0, l => (l, 0)
  | _ + 1, [] => ([], 0)
  | fuel + 1, c :: cs =>
    match frP1Try (c :: cs) with
    | some (p1, m, rest) =>
      let idx := (indexOfSub orig m).getD 0
      let aft := orig.drop (idx + m.length)
      let r := frP1Scan orig fuel rest
      if containsC aft ':' then (p1 ++ ',' :: ' ' :: '"' :: r.1, r.2 + 1)
      else (m ++ r.1, r.2)
    | none =>
      let r := frP1Scan orig fuel cs
      (c :: r.1, r.2)

/-- Global scan of patterns 2 and 3, `/(\})\s*(")/` and `/(\])\s*(")/`:
a closer, whitespace (dropped by the replacement) and a quote become
closer, comma, quote. -/
def frCloserScan (closer : Char) : Nat → List Char → List Char × Nat
  | 0, l => (l, 0)
  | _ + 1, [] => ([], 0)
  | fuel + 1, c :: cs =>
    if c = closer then
      let s := spanP jsWs cs
      match s.2 with
      | '"' :: r2 =>
        let r := frCloserScan closer fuel r2
        (c :: ',' :: '"' :: r.1, r.2 + 1)
      | _ =>
        let r := frCloserScan closer fuel cs
        (c :: r.1, r.2)
    else
      let r := frCloserScan closer fuel cs
      (c :: r.1, r.2)

/-- Global scan of pattern 4, `/(\d+)\s*(")/`: a digit run, whitespace
(dropped) and a quote become digits, comma, quote — also inside string
literals, since the regex has no notion of string context. -/
def frDigitScan : Nat → List Char → List Char × Nat
  | 0, l => (l, 0)
  | _ + 1, [] => ([], 0)
  | fuel + 1, c :: cs =>
    if isDigitChar c then
      let s1 := spanP isDigitChar cs
      let s2 := spanP jsWs s1.2
      match s2.2 with
      | '"' :: r3 =>
        let r := frDigitScan fuel r3
        ((c :: s1.1) ++ ',' :: '"' :: r.1, r.2 + 1)
      | _ =>
        let r := frDigitScan fuel cs
        (c :: r.1, r.2)
    else
      let r := frDigitScan fuel cs
      (c :: r.1, r.2)

/-- Global scan for a fixed keyword (patterns 5 and 6, `true|false` and
`null`) followed by whitespace (dropped) and a quote. -/
def frWordScan (w : List Char) : Nat → List Char → List Char × Nat
  | 0, l => (l, 0)
  | _ + 1, [] => ([], 0)
  | fuel + 1, c :: cs =>
    if w.isPrefixOf (c :: cs) then
      let tail := (c :: cs).drop w.length
      let s := spanP jsWs tail
      match s.2 with
      | '"' :: r2 =>
        let r := frWordScan w fuel r2
        (w ++ ',' :: '"' :: r.1, r.2 + 1)
      | _ =>
        let r := frWordScan w fuel cs
        (c :: r.1, r.2)
    else
      let r := frWordScan w fuel cs
      (c :: r.1, r.2)

/-- Model of `JsonRemediatorFinal.fixMissingCommas`: the six patterns in source
order, each a full global replace over the previous result. -/
def fixMissingCommasFR (l : List Char) : List Char × List FinalError :=
  let r1 := frP1Scan l (l.length + 1) l
  let r2 := frCloserScan chrClose (r1.1.length + 1) r1.1
  let r3 := frCloserScan ']' (r2.1.length + 1) r2.1
  let r4 := frDigitScan (r3.1.length + 1) r3.1
  let r5a := frWordScan ['t', 'r', 'u', 'e'] (r4.1.length + 1) r4.1
  let r5b := frWordScan ['f', 'a', 'l', 's', 'e'] (r5a.1.length + 1) r5a.1
  let r6 := frWordScan ['n', 'u', 'l', 'l'] (r5b.1.length + 1) r5b.1
  (r6.1,
    List.replicate (r1.2 + r2.2 + r3.2 + r4.2 + r5a.2 + r5b.2 + r6.2) frMcErr)

/-- Model of `JsonRemediatorFinal.fixTrailingCommas`: the same global
`/,\s*([}\]])/g` rewrite as the final phase of the line-oriented
variant. -/
def fixTrailingCommasFR (l : List Char) : List Char × List FinalError :=
  let r := ftcCScan (l.length + 1) l
  (r.1, List.replicate r.2 ⟨"trailing-comma", 0, "Trailing comma before closing brace/bracket"⟩)

/-- Global scan of `/([{,]\s*)([a-zA-Z_$][a-zA-Z0-9_$]*)\s*:/`: an
unquoted property name after an opening brace or comma is quoted (the
whitespace between name and colon is dropped by the replacement). -/
def frQuoteScan : Nat → List Char → List Char × List FinalError
  | 0, l => (l, [])
  | _ + 1, [] => ([], [])
  | fuel + 1, c :: cs =>
    if c = chrOpen || c = ',' then
      let s1 := spanP jsWs cs
      match s1.2 with
      | i :: r2 =>
        if identStart i then
          let s2 := spanP identChar r2
          let name := i :: s2.1
          let s3 := spanP jsWs s2.2
          match s3.2 with
          | ':' :: r5 =>
            let r := frQuoteScan fuel r5
            (c :: s1.1 ++ '"' :: (name ++ '"' :: ':' :: r.1),
              ⟨"missing-quote", 0, "Missing quotes around property name: " ++ String.mk name⟩ :: r.2)
          | _ =>
            let r := frQuoteScan fuel cs
            (c :: r.1, r.2)
        else
          let r := frQuoteScan fuel cs
          (c :: r.1, r.2)
      | [] =>
        let r := frQuoteScan fuel cs
        (c :: r.1, r.2)
    else
      let r := frQuoteScan fuel cs
      (c :: r.1, r.2)

/-- Model of `JsonRemediatorFinal.fixMissingQuotes`. -/
def fixMissingQuotesFR (l : List Char) : List Char × List FinalError :=
  frQuoteScan (l.length + 1) l

/-- Model of `JsonRemediatorFinal.fixMalformedStructures`: append the missing
closing brackets first, then the missing closing braces (no newlines, no
`undefined` rewrite). -/
def fixMalformedStructuresFR (l : List Char) : List Char × List FinalError :=
  let bDef := countC l chrOpen - countC l chrClose
  let kDef := countC l '[' - countC l ']'
  ((l ++ repList [']'] kDef) ++ repList [chrClose] bDef,
    List.replicate kDef ⟨"malformed-array", 0, "Missing closing bracket"⟩ ++
      List.replicate bDef ⟨"malformed-object", 0, "Missing closing brace"⟩)

/-- Model of `JsonRemediatorFinal.fixJsonSyntax`: a single pass of missing
commas, trailing commas, missing quotes, malformed structures. -/
def fixJsonSyntaxFR (l : List Char) : List Char × List FinalError :=
  let mc := fixMissingCommasFR l
  let tc := fixTrailingCommasFR mc.1
  let q := fixMissingQuotesFR tc.1
  let ms := fixMalformedStructuresFR q.1
  (ms.1, mc.2 ++ tc.2 ++ q.2 ++ ms.2)

/-- Model of `JsonRemediatorFinal.remediate`. -/
def remediateFR (s : String) : FinalResult :=
  match jsonParse s with
  | some _ => ⟨true, s, [], []⟩
  | none =>
    let f := fixJsonSyntaxFR s.data
    let fixedStr := String.mk f.1
    match jsonParse fixedStr with
    | some _ => ⟨true, fixedStr, f.2, []⟩
    | none =>
      ⟨false, fixedStr, f.2,
        ["Failed to parse after remediation: " ++ jsEngineParseErrorMessage]⟩

/-- Model of `JsonRemediatorFinal.remediatePackageJson`: the returned object is
`{...result, unfixableErrors: this.unfixableErrors}`, so — unlike the
line-oriented variant — the manifest messages pushed onto the instance
buffer are visible even on already-valid input.  A parsed null value
throws on field access; that catch pushes onto `this.errors`, which the
returned result aliases only on the fixed-then-parsed path. -/
def remediatePackageJsonFR (s : String) : FinalResult :=
  match jsonParse s with
  | some Json.null => ⟨true, s, [], []⟩
  | some v => ⟨true, s, [], manifestFieldIssues v⟩
  | none =>
    let f := fixJsonSyntaxFR s.data
    let fixedStr := String.mk f.1
    match jsonParse fixedStr with
    | some Json.null =>
      ⟨true, fixedStr,
        f.2 ++ [⟨"parse-error", 0, pkgValidationFailedMsg jsNullAccessMessage⟩], []⟩
    | some v => ⟨true, fixedStr, f.2, manifestFieldIssues v⟩
    | none =>
      ⟨false, fixedStr, f.2,
        ["Failed to parse after remediation: " ++ jsEngineParseErrorMessage]⟩

/-- Model of `JsonRemediatorFinal.remediate` with explicit exceptions. -/
def remediateFRE (s : String) : Except String FinalResult :=
  tryCatchE
    (match jsonParseE s with
      | Except.error e => Except.error e
      | Except.ok _ => Except.ok (⟨true, s, [], []⟩ : FinalResult))
    (fun _ =>
      let f := fixJsonSyntaxFR s.data
      let fixedStr := String.mk f.1
      tryCatchE
        (match jsonParseE fixedStr with
          | Except.error e => Except.error e
          | Except.ok _ => Except.ok (⟨true, fixedStr, f.2, []⟩ : FinalResult))
        (fun e =>
          Except.ok (⟨false, fixedStr, f.2,
            ["Failed to parse after remediation: " ++ e]⟩ : FinalResult)))

/-- Catch-handler update of the final variant (the push targets
`this.errors`, visible only when the result aliases it). -/
def frCatchUpdate (s : String) (r : FinalResult) (e : String) : FinalResult :=
  match jsonParse s with
  | some _ => ⟨r.success, r.fixedJson, r.errors, []⟩
  | none =>
    ⟨r.success, r.fixedJson,
      r.errors ++ [⟨"parse-error", 0, pkgValidationFailedMsg e⟩], []⟩

/-- Model of `JsonRemediatorFinal.remediatePackageJson` with explicit
exceptions. -/
def remediatePackageJsonFRE (s : String) : Except String FinalResult :=
  match remediateFRE s with
  | Except.error e => Except.error e
  | Except.ok r =>
    if r.success then
      tryCatchE
        (match jsonParseE r.fixedJson with
          | Except.error e => Except.error e
          | Except.ok Json.null => Except.error jsNullAccessMessage
          | Except.ok v => Except.ok { r with unfixableErrors := manifestFieldIssues v })
        (fun e => Except.ok (frCatchUpdate s r e))
    else Except.ok r

end Reynard

namespace Reynard

/-! ## Theorems -/

set_option maxRecDepth 100000

/-- C1: for every input string that parses as valid JSON, both
`remediate` implementations return succeeded true, the input text
unchanged character for character, an empty diagnostics list and an empty
unfixableReasons list (the early-return path of `remediate`). -/
theorem c1_noop_on_valid_input (t : String) (h : (jsonParse t).isSome = true) :
    remediateJR t = ⟨true, t, [], []⟩ ∧ remediateFR t = ⟨true, t, [], []⟩ := by
  obtain ⟨v, hv⟩ := Option.isSome_iff_exists.mp h
  constructor <;> simp [remediateJR, remediateFR, hv]

/-- Witness for C1 at the concrete valid input consisting of an empty
object. -/
theorem c1_noop_on_valid_input_witness :
    remediateJR "\x7b\x7d" = ⟨true, "\x7b\x7d", [], []⟩ ∧
      remediateFR "\x7b\x7d" = ⟨true, "\x7b\x7d", [], []⟩ :=
  c1_noop_on_valid_input "\x7b\x7d" (by decide)

/-- C2 counterexample: on the input holding a lone closing brace line
followed by a deeper-indented property line, `remediate` reaches a
textual fixed point in one pipeline iteration (the missing-comma pass
adds a comma that the trailing-comma pass removes again), yet both
offsetting fixes are logged; re-running `remediate` on the returned
`repairedText` therefore logs those diagnostics again — the diagnostics list of the second
run is not empty, refuting the claim as stated. -/
theorem c2_idempotence_counterexample :
    (remediateJR ((remediateJR "\x7d\n    \"a\": 1").fixedJson)).errors ≠ [] := by
  decide

/-- C2 as amended: restricted to inputs on which the first run succeeds
(`succeeded = true`), the second run returns the same repairedText with
empty diagnostics and empty unfixableReasons. -/
theorem c2_idempotence_amended (t : String) (h : (remediateJR t).success = true) :
    remediateJR ((remediateJR t).fixedJson) =
      ⟨true, (remediateJR t).fixedJson, [], []⟩ := by
  rcases h1 : jsonParse t with _ | v
  · rcases h2 : jsonParse (String.mk (fixJsonSyntaxJR t.data).1) with _ | w
    · exfalso
      have hs : (remediateJR t).success = false := by
        simp [remediateJR, h1, h2]
      rw [h] at hs
      cases hs
    · have hfix : (remediateJR t).fixedJson = String.mk (fixJsonSyntaxJR t.data).1 := by
        simp [remediateJR, h1, h2]
      rw [hfix]
      simp [remediateJR, h2]
  · have hfix : (remediateJR t).fixedJson = t := by
      simp [remediateJR, h1]
    rw [hfix]
    simp [remediateJR, h1]

/-- Witness for C2 as amended at the input holding a lone opening brace,
whose first run succeeds after a closing brace is appended. -/
theorem c2_idempotence_amended_witness :
    remediateJR ((remediateJR "\x7b").fixedJson) =
      ⟨true, (remediateJR "\x7b").fixedJson, [], []⟩ :=
  c2_idempotence_amended "\x7b" (by decide)

/-- C4: on the single-line missing-comma input the line-oriented
`JsonRemediator.remediate` (whose comma pass only reasons across line
boundaries) changes nothing, records no diagnostic and fails its final
parse, while `JsonRemediatorFinal.remediate` succeeds but injects commas
inside the two string literals (its digit-before-quote pattern matches
inside strings) and records three MissingComma diagnostics — neither
variant produces the claimed repairedText or the claimed single
diagnostic, contradicting the documented example of the source module. -/
theorem c4_missing_comma_scenario :
    (remediateJR "\x7b\"a\":\"1\" \"b\":\"2\"\x7d").success = false ∧
      (remediateJR "\x7b\"a\":\"1\" \"b\":\"2\"\x7d").fixedJson =
        "\x7b\"a\":\"1\" \"b\":\"2\"\x7d" ∧
      (remediateJR "\x7b\"a\":\"1\" \"b\":\"2\"\x7d").errors = [] ∧
      (remediateJR "\x7b\"a\":\"1\" \"b\":\"2\"\x7d").unfixableErrors.length = 1 ∧
      remediateFR "\x7b\"a\":\"1\" \"b\":\"2\"\x7d" =
        ⟨true, "\x7b\"a\":\"1,\", \"b\":\"2,\"\x7d", [frMcErr, frMcErr, frMcErr], []⟩ := by
  refine ⟨by decide, by decide, by decide, by decide, by decide⟩

/-- C5: on the already-valid manifest missing its version field, the
line-oriented `remediatePackageJson` pushes the message onto the
instance buffer, but the valid-input path of `remediate` returned fresh
empty arrays, so the unfixableReasons list of the returned outcome is empty —
the message is lost.  The final variant overrides the returned field
with the instance buffer and does report it. -/
theorem c5_manifest_missing_version :
    remediatePackageJsonJR "\x7b\"name\":\"x\"\x7d" =
      ⟨true, "\x7b\"name\":\"x\"\x7d", [], []⟩ ∧
      (remediatePackageJsonFR "\x7b\"name\":\"x\"\x7d").unfixableErrors =
        ["Missing required field: version"] := by
  refine ⟨by decide, by decide⟩

/-- C8: the escape-normalizer lookahead class `["\\/bfnrt]` has eight
characters — `u` is missing — so a backslash introducing a valid `\u`
unicode escape is doubled, while the eight listed escapes are preserved;
this contradicts both the claim and the documentation of the pass itself
(preserve valid escape sequences). -/
theorem c8_escape_normalizer_doubles_unicode :
    fixInvalidEscapesJR "\\u0041".data = "\\\\u0041".data ∧
      fixInvalidEscapesJR "\\n".data = "\\n".data ∧
      fixInvalidEscapesJR "\\\\x".data = "\\\\x".data ∧
      fixInvalidEscapesJR "\\q".data = "\\\\q".data := by
  refine ⟨by decide, by decide, by decide, by decide⟩

end Reynard

namespace Reynard

/-! ### Properties of the `undefined` → `null` scanner -/

/-- A match site must start with the letter u. -/
theorem atSite_head_ne {c : Char} (hc : c ≠ 'u') (l : List Char) :
    atSite (c :: l) = false := by
  unfold atSite
  rw [List.take_succ_cons]
  have hb : decide ((c :: List.take 8 l) = undefChars) = false := by
    apply decide_eq_false
    intro he
    apply hc
    have : c :: List.take 8 l = 'u' :: ['n', 'd', 'e', 'f', 'i', 'n', 'e', 'd'] := he
    exact (List.cons.injEq _ _ _ _ ▸ congrArg id this) |>.1
  rw [hb, Bool.false_and]

/-- If the scanner output starts with a given all-word pattern, so did
the input: inserted `null` blocks cannot spell a word-character run that
the input did not already carry, because a keep step copies the input
character and the previous-character flag stays word. -/
theorem replUF_take_pat (pat : List Char) (hw : pat.all isWordChar = true) :
    ∀ f cs, (replUF f true cs).take pat.length = pat → cs.take pat.length = pat := by
  induction pat with
  | nil => intro f cs _; simp
  | cons a pat ih =>
    intro f cs hout
    cases f with
    | zero => simpa [replUF] using hout
    | succ f =>
      cases cs with
      | nil => simp [replUF] at hout
      | cons c cs' =>
        have hrepl : replUF (f + 1) true (c :: cs') = c :: replUF f (isWordChar c) cs' := by
          simp [replUF]
        rw [hrepl, List.length_cons, List.take_succ_cons] at hout
        have h1 : c = a := (List.cons.injEq _ _ _ _ ▸ hout).1
        have h2 : (replUF f (isWordChar c) cs').take pat.length = pat :=
          (List.cons.injEq _ _ _ _ ▸ hout).2
        subst h1
        have hw' : isWordChar c = true ∧ pat.all isWordChar = true := by
          simpa using hw
        rw [hw'.1] at h2
        rw [List.length_cons, List.take_succ_cons, ih hw'.2 f cs' h2]

/-- Conversely, an all-word input prefix survives the scanner unchanged,
together with the word-ness of the character right after it. -/
theorem replUF_take_drop (pat : List Char) (hw : pat.all isWordChar = true) :
    ∀ f cs, cs.take pat.length = pat →
      (replUF f true cs).take pat.length = pat ∧
        headIsWord ((replUF f true cs).drop pat.length) =
          headIsWord (cs.drop pat.length) := by
  induction pat with
  | nil =>
    intro f cs _
    refine ⟨by simp, ?_⟩
    cases f with
    | zero => simp [replUF]
    | succ f =>
      cases cs with
      | nil => simp [replUF]
      | cons c cs' =>
        have hrepl : replUF (f + 1) true (c :: cs') = c :: replUF f (isWordChar c) cs' := by
          simp [replUF]
        rw [hrepl]
        simp [headIsWord]
  | cons a pat ih =>
    intro f cs hin
    cases cs with
    | nil => simp at hin
    | cons c cs' =>
      rw [List.length_cons, List.take_succ_cons] at hin
      have h1 : c = a := (List.cons.injEq _ _ _ _ ▸ hin).1
      have h2 : cs'.take pat.length = pat := (List.cons.injEq _ _ _ _ ▸ hin).2
      subst h1
      have hw' : isWordChar c = true ∧ pat.all isWordChar = true := by
        simpa using hw
      cases f with
      | zero =>
        refine ⟨?_, rfl⟩
        simp [replUF, List.take_succ_cons, h2]
      | succ f =>
        have hrepl : replUF (f + 1) true (c :: cs') = c :: replUF f (isWordChar c) cs' := by
          simp [replUF]
        rw [hrepl, hw'.1]
        obtain ⟨ht, hd⟩ := ih hw'.2 f cs' h2
        refine ⟨?_, ?_⟩
        · rw [List.length_cons, List.take_succ_cons, ht]
        · rw [List.length_cons, List.drop_succ_cons, List.drop_succ_cons, hd]

/-- A position that is not a match site in the input is not one in the
scanner output either. -/
theorem atSite_replUF (c : Char) (cs : List Char) (f : Nat)
    (h : atSite (c :: cs) = false) :
    atSite (c :: replUF f (isWordChar c) cs) = false := by
  by_cases hc : c = 'u'
  · subst hc
    have hwu : isWordChar 'u' = true := by decide
    rw [hwu]
    by_cases h8 : cs.take 8 = ['n', 'd', 'e', 'f', 'i', 'n', 'e', 'd']
    · have hb : headIsWord (cs.drop 8) = true := by
        by_contra hb
        rw [Bool.not_eq_true] at hb
        have hsite : atSite ('u' :: cs) = true := by
          unfold atSite
          rw [List.take_succ_cons, List.drop_succ_cons, h8, hb]
          simp [undefChars]
        rw [hsite] at h
        cases h
      have hlen : (['n', 'd', 'e', 'f', 'i', 'n', 'e', 'd'] : List Char).length = 8 := rfl
      obtain ⟨ht, hd⟩ :=
        replUF_take_drop ['n', 'd', 'e', 'f', 'i', 'n', 'e', 'd'] (by decide) f cs
          (by rw [hlen]; exact h8)
      rw [hlen] at ht hd
      unfold atSite
      rw [List.take_succ_cons, List.drop_succ_cons, ht, hd, hb]
      simp [undefChars]
    · by_cases h9 : (replUF f true cs).take 8 = ['n', 'd', 'e', 'f', 'i', 'n', 'e', 'd']
      · exact absurd
          (by
            have hlen : (['n', 'd', 'e', 'f', 'i', 'n', 'e', 'd'] : List Char).length = 8 := rfl
            have hin := replUF_take_pat ['n', 'd', 'e', 'f', 'i', 'n', 'e', 'd'] (by decide) f cs
              (by rw [hlen]; exact h9)
            rw [hlen] at hin
            exact hin)
          h8
      · unfold atSite
        rw [List.take_succ_cons]
        have hb : decide (('u' :: (replUF f true cs).take 8) = undefChars) = false := by
          apply decide_eq_false
          intro he
          exact h9 ((List.cons.injEq _ _ _ _ ▸ he).2)
        rw [hb, Bool.false_and]
  · exact atSite_head_ne hc _

/-- The output of the `undefined` → `null` scanner carries no remaining
match site: replaced occurrences are gone and no new standalone
`undefined` can be assembled from `null` blocks and kept characters. -/
theorem noSite_replUF : ∀ f (p : Bool) l, l.length ≤ f →
    noSite p (replUF f p l) = true := by
  intro f
  induction f with
  | zero =>
    intro p l hl
    have : l = [] := List.eq_nil_of_length_eq_zero (Nat.le_zero.mp hl)
    subst this
    simp [replUF, noSite]
  | succ f ih =>
    intro p l hl
    cases l with
    | nil => simp [replUF, noSite]
    | cons c cs =>
      have hcs : cs.length ≤ f := by
        have := hl
        simp only [List.length_cons] at this
        omega
      by_cases hcond : (!p && atSite (c :: cs)) = true
      · have hcond2 := hcond
        rw [Bool.and_eq_true] at hcond2
        have hp : p = false := by
          have := hcond2.1
          simp at this
          exact this
        subst hp
        have hrepl : replUF (f + 1) false (c :: cs) =
            'n' :: 'u' :: 'l' :: 'l' :: replUF f true (cs.drop 8) := by
          simp only [replUF]
          rw [if_pos hcond]
        rw [hrepl]
        have hd8 : (cs.drop 8).length ≤ f := by
          rw [List.length_drop]
          omega
        have hrec : noSite true (replUF f true (cs.drop 8)) = true := ih true (cs.drop 8) hd8
        have h1 : atSite ('n' :: 'u' :: 'l' :: 'l' :: replUF f true (cs.drop 8)) = false :=
          atSite_head_ne (by decide) _
        simp only [noSite, h1, Bool.not_false, Bool.false_or, Bool.true_and]
        have w1 : isWordChar 'n' = true := by decide
        have w2 : isWordChar 'u' = true := by decide
        have w3 : isWordChar 'l' = true := by decide
        rw [w1, w2, w3]
        simp only [Bool.true_or, Bool.true_and]
        exact hrec
      · have hcond' : ¬ ((!p && atSite (c :: cs)) = true) := hcond
        have hrepl : replUF (f + 1) p (c :: cs) = c :: replUF f (isWordChar c) cs := by
          simp only [replUF]
          rw [if_neg hcond']
        rw [hrepl]
        simp only [noSite, Bool.and_eq_true]
        refine ⟨?_, ih (isWordChar c) cs hcs⟩
        cases hp : p with
        | true => simp
        | false =>
          rw [hp] at hcond'
          have hsite : atSite (c :: cs) = false := by
            cases hx : atSite (c :: cs) with
            | false => rfl
            | true => exact absurd (by rw [hx]; rfl) hcond'
          rw [atSite_replUF c cs f hsite]
          simp

end Reynard

namespace Reynard

/-- Word-free text carries no match site. -/
theorem noSite_of_wordFree (l : List Char)
    (hl : l.all (fun c => !isWordChar c) = true) : ∀ p, noSite p l = true := by
  induction l with
  | nil => intro p; rfl
  | cons c cs ih =>
    intro p
    rw [List.all_cons, Bool.and_eq_true] at hl
    have hc : c ≠ 'u' := by
      intro he
      rw [he] at hl
      have : isWordChar 'u' = true := by decide
      rw [this] at hl
      simpa using hl.1
    simp only [noSite, Bool.and_eq_true]
    exact ⟨by rw [atSite_head_ne hc]; simp, ih hl.2 _⟩

/-- Appending word-free text does not change the word-ness of the first
character position. -/
theorem headIsWord_append (x l2 : List Char)
    (h2 : l2.all (fun c => !isWordChar c) = true) :
    headIsWord (x ++ l2) = headIsWord x := by
  cases x with
  | nil =>
    cases l2 with
    | nil => rfl
    | cons c cs =>
      rw [List.all_cons, Bool.and_eq_true] at h2
      simp only [List.nil_append, headIsWord]
      simpa using h2.1
  | cons c cs => rfl

/-- Appending word-free text creates or destroys no match site at the
head position. -/
theorem atSite_append (l l2 : List Char)
    (h2 : l2.all (fun c => !isWordChar c) = true) :
    atSite (l ++ l2) = atSite l := by
  by_cases hl : 9 ≤ l.length
  · unfold atSite
    rw [List.take_append_eq_append_take, List.drop_append_eq_append_drop,
      Nat.sub_eq_zero_of_le hl]
    simp only [List.take_zero, List.append_nil, List.drop_zero]
    rw [headIsWord_append (l.drop 9) l2 h2]
  · have hlt : l.length < 9 := Nat.lt_of_not_le hl
    have hltake : l.take 9 = l := List.take_of_length_le (Nat.le_of_lt hlt)
    have hR : atSite l = false := by
      unfold atSite
      rw [hltake]
      have hne : decide (l = undefChars) = false := by
        apply decide_eq_false
        intro he
        rw [he] at hlt
        exact absurd hlt (by decide)
      rw [hne, Bool.false_and]
    rw [hR]
    unfold atSite
    have hne : decide ((l ++ l2).take 9 = undefChars) = false := by
      apply decide_eq_false
      intro he
      rw [List.take_append_eq_append_take, hltake] at he
      have hlen : l.length + (l2.take (9 - l.length)).length = 9 := by
        have := congrArg List.length he
        simpa using this
      have hpos : 0 < (l2.take (9 - l.length)).length := by omega
      obtain ⟨x, hx⟩ := List.exists_mem_of_length_pos hpos
      have hxl2 : x ∈ l2 := List.take_subset _ _ hx
      have hxu : x ∈ undefChars := by
        rw [← he]
        exact List.mem_append_right _ hx
      have hword : isWordChar x = true := by
        have hall : ∀ y ∈ undefChars, isWordChar y = true := by decide
        exact hall x hxu
      have hnword := List.all_eq_true.mp h2 x hxl2
      rw [hword] at hnword
      simpa using hnword
    rw [hne, Bool.false_and]

/-- Site-freeness is preserved by appending word-free text. -/
theorem noSite_append (l l2 : List Char)
    (h2 : l2.all (fun c => !isWordChar c) = true) :
    ∀ p, noSite p l = true → noSite p (l ++ l2) = true := by
  induction l with
  | nil => intro p _; exact noSite_of_wordFree l2 h2 p
  | cons c cs ih =>
    intro p h
    simp only [noSite, Bool.and_eq_true] at h
    simp only [List.cons_append, noSite, Bool.and_eq_true]
    constructor
    · have ha := atSite_append (c :: cs) l2 h2
      rw [List.cons_append] at ha
      have hgoal : (p || !atSite (c :: (cs ++ l2))) = true := by
        rw [ha]
        exact h.1
      exact hgoal
    · exact ih _ h.2

/-- On site-free input the `undefined` → `null` scanner is the
identity. -/
theorem replUF_eq_of_noSite : ∀ f (p : Bool) l, noSite p l = true →
    replUF f p l = l := by
  intro f
  induction f with
  | zero => intro p l _; rfl
  | succ f ih =>
    intro p l h
    cases l with
    | nil => rfl
    | cons c cs =>
      simp only [noSite, Bool.and_eq_true] at h
      have hcond : ¬ ((!p && atSite (c :: cs)) = true) := by
        intro hc
        rw [Bool.and_eq_true] at hc
        have hp : p = false := by
          have := hc.1
          simp at this
          exact this
        rw [hp] at h
        have := h.1
        rw [hc.2] at this
        simpa using this
      simp only [replUF]
      rw [if_neg hcond, ih (isWordChar c) cs h.2]

/-- All characters of a repeated all-`q` piece satisfy `q`. -/
theorem repList_all {piece : List Char} {q : Char → Bool}
    (hq : piece.all q = true) : ∀ n, (repList piece n).all q = true := by
  intro n
  induction n with
  | zero => rfl
  | succ n ih =>
    simp only [repList, List.all_append, Bool.and_eq_true]
    exact ⟨hq, ih⟩

/-- Repetition of a one-character piece is `List.replicate`. -/
theorem repList_singleton (c : Char) : ∀ n, repList [c] n = List.replicate n c := by
  intro n
  induction n with
  | zero => rfl
  | succ n ih => simp [repList, List.replicate_succ, ih]

/-- Every full pass sequence ends with the malformed-structures pass,
whose last step is the `undefined` → `null` rewrite, so its output is
free of standalone `undefined` words. -/
theorem noSite_pipeTextJR (l : List Char) : noSite false (pipeTextJR l) = true := by
  simp only [pipeTextJR, pipeOnceJR, fixMalformedStructuresJR, replaceUndefined]
  exact noSite_replUF _ _ _ (Nat.le_refl _)

/-- Site-freeness of the convergence-loop result: every executed
iteration ends with the structure pass, and an early exit returns the
output of the previous iteration (or the site-free initial value). -/
theorem noSite_fixLoopJR : ∀ fuel prev cur,
    (noSite false cur = true ∨ (cur ≠ prev ∧ 1 ≤ fuel)) →
    noSite false (fixLoopJR fuel prev cur).1 = true := by
  intro fuel
  induction fuel with
  | zero =>
    intro prev cur h
    rcases h with h | ⟨_, hf⟩
    · exact h
    · exact absurd hf (by omega)
  | succ f ih =>
    intro prev cur h
    by_cases he : cur = prev
    · rcases h with h | ⟨hne, _⟩
      · simp only [fixLoopJR]
        rw [if_pos he]
        exact h
      · exact absurd he hne
    · simp only [fixLoopJR]
      rw [if_neg he]
      exact ih cur _ (Or.inl (noSite_pipeTextJR cur))

end Reynard

namespace Reynard

/-- C10: whenever the initial strict parse fails, the returned
repairedText contains no standalone `undefined` word — every occurrence
was rewritten to `null` by the structure pass that ends each pipeline
iteration — and the structure pass records exactly one diagnostic per
appended closer, none for the `undefined` rewrites. -/
theorem c10_undefined_rewritten_silently :
    (∀ t : String, jsonParse t = none →
      noSiteStr ((remediateJR t).fixedJson) = true) ∧
      (∀ l : List Char, (fixMalformedStructuresJR l).2.length =
        (countC l chrOpen - countC l chrClose) + (countC l '[' - countC l ']')) := by
  constructor
  · intro t ht
    have hfix : (remediateJR t).fixedJson = String.mk (fixJsonSyntaxJR t.data).1 := by
      rcases h2 : jsonParse (String.mk (fixJsonSyntaxJR t.data).1) with _ | w <;>
        simp [remediateJR, ht, h2]
    rw [hfix]
    show noSite false (fixJsonSyntaxJR t.data).1 = true
    by_cases hnil : t.data = []
    · rw [hnil]
      decide
    · exact noSite_fixLoopJR 5 [] t.data (Or.inr ⟨hnil, by omega⟩)
  · intro l
    show (List.replicate (countC l chrOpen - countC l chrClose) mObjErr ++
      List.replicate (countC l '[' - countC l ']') mArrErr).length = _
    rw [List.length_append, List.length_replicate, List.length_replicate]

/-- Witness for C10 at the failing input holding a braced standalone
`undefined` (rewritten to `null`) and at the unbalanced input for the
diagnostic count. -/
theorem c10_undefined_rewritten_silently_witness :
    noSiteStr ((remediateJR "\x7bundefined\x7d").fixedJson) = true ∧
      (fixMalformedStructuresJR "\x7b[".data).2.length =
        (countC "\x7b[".data chrOpen - countC "\x7b[".data chrClose) +
          (countC "\x7b[".data '[' - countC "\x7b[".data ']') :=
  ⟨c10_undefined_rewritten_silently.1 "\x7bundefined\x7d"
      (Option.isNone_iff_eq_none.mp (by decide)),
    c10_undefined_rewritten_silently.2 "\x7b[".data⟩

/-- C7 counterexample: the line-oriented structure pass does not only
append — its final `undefined` → `null` rewrite alters characters, so on
the input `undefined` the output is `null`, of which the input is not a
prefix. -/
theorem c7_structure_closer_counterexample :
    ¬ ∃ u : List Char,
      (fixMalformedStructuresJR "undefined".data).1 = "undefined".data ++ u := by
  rintro ⟨u, hu⟩
  have h4 : (fixMalformedStructuresJR "undefined".data).1 = "null".data := by decide
  rw [h4] at hu
  have hl := congrArg List.length hu
  rw [List.length_append] at hl
  have h1 : ("null".data).length = 4 := rfl
  have h2 : ("undefined".data).length = 9 := rfl
  omega

/-- C7 as amended: the structure pass of the final variant only appends (its
input is always a prefix of its output); the line-oriented variant
appends its closers and then rewrites standalone `undefined` words, so
its input is a prefix of its output whenever the input contains no
standalone `undefined`. -/
theorem c7_structure_closer_appends (l : List Char) :
    (∃ u, (fixMalformedStructuresFR l).1 = l ++ u) ∧
      (noSite false l = true →
        ∃ u, (fixMalformedStructuresJR l).1 = l ++ u) := by
  constructor
  · refine ⟨repList [']'] (countC l '[' - countC l ']') ++
      repList [chrClose] (countC l chrOpen - countC l chrClose), ?_⟩
    simp [fixMalformedStructuresFR, List.append_assoc]
  · intro h
    have hwf1 : (repList ['\n', chrClose]
        (countC l chrOpen - countC l chrClose)).all (fun c => !isWordChar c) = true :=
      repList_all (by decide) _
    have hwf2 : (repList ['\n', ']']
        (countC l '[' - countC l ']')).all (fun c => !isWordChar c) = true :=
      repList_all (by decide) _
    have hns : noSite false ((l ++ repList ['\n', chrClose]
        (countC l chrOpen - countC l chrClose)) ++ repList ['\n', ']']
        (countC l '[' - countC l ']')) = true :=
      noSite_append _ _ hwf2 _ (noSite_append _ _ hwf1 _ h)
    refine ⟨repList ['\n', chrClose] (countC l chrOpen - countC l chrClose) ++
      repList ['\n', ']'] (countC l '[' - countC l ']'), ?_⟩
    simp only [fixMalformedStructuresJR, replaceUndefined]
    rw [replUF_eq_of_noSite _ _ _ hns]
    rw [List.append_assoc]

/-- Witness for C7 as amended at the unbalanced site-free input. -/
theorem c7_structure_closer_appends_witness :
    (∃ u, (fixMalformedStructuresFR "\x7b[".data).1 = "\x7b[".data ++ u) ∧
      (∃ u, (fixMalformedStructuresJR "\x7b[".data).1 = "\x7b[".data ++ u) :=
  ⟨(c7_structure_closer_appends "\x7b[".data).1,
    (c7_structure_closer_appends "\x7b[".data).2 (by decide)⟩

/-- C6 counterexample: on an input missing one closing brace and one
closing bracket, the line-oriented structure pass appends the closing
brace before the closing bracket (each on its own line), so an appended
`}` precedes the appended `]` in the output. -/
theorem c6_closer_order_counterexample :
    (fixMalformedStructuresJR "\x7b[".data).1 =
      "\x7b[".data ++ ('\n' :: chrClose :: '\n' :: [']']) ∧
      (fixMalformedStructuresJR "\x7b[".data).1 ≠
        "\x7b[".data ++ ('\n' :: ']' :: '\n' :: [chrClose]) := by
  refine ⟨by decide, by decide⟩

/-- C6 as amended: the final variant appends every missing `]` before
every missing `}`; the line-oriented variant appends every missing `}`
(each preceded by a newline) before every missing `]` (likewise) and then applies the
`undefined` → `null` rewrite to the whole text. -/
theorem c6_closer_order_amended (l : List Char) :
    (fixMalformedStructuresFR l).1 =
      l ++ (List.replicate (countC l '[' - countC l ']') ']' ++
        List.replicate (countC l chrOpen - countC l chrClose) chrClose) ∧
      (fixMalformedStructuresJR l).1 =
        replaceUndefined (l ++
          (repList ['\n', chrClose] (countC l chrOpen - countC l chrClose) ++
            repList ['\n', ']'] (countC l '[' - countC l ']'))) := by
  constructor
  · simp [fixMalformedStructuresFR, repList_singleton, List.append_assoc]
  · simp [fixMalformedStructuresJR, List.append_assoc]

/-- Characterization of the convergence loop: some `n ≤ fuel` pipeline
iterations are executed, and an early stop means the result is a fixed
point of the pass sequence. -/
theorem fixLoopJR_spec : ∀ fuel prev cur, (cur = prev → pipeTextJR cur = cur) →
    ∃ n ≤ fuel, (fixLoopJR fuel prev cur).1 = pipeTextJR^[n] cur ∧
      (n < fuel → pipeTextJR (pipeTextJR^[n] cur) = pipeTextJR^[n] cur) := by
  intro fuel
  induction fuel with
  | zero =>
    intro prev cur _
    exact ⟨0, Nat.le_refl 0, rfl, fun h => absurd h (Nat.not_lt_zero 0)⟩
  | succ f ih =>
    intro prev cur h
    by_cases he : cur = prev
    · refine ⟨0, Nat.zero_le _, ?_, fun _ => ?_⟩
      · simp only [fixLoopJR]
        rw [if_pos he]
        rfl
      · simpa using h he
    · obtain ⟨n, hn, h1, h2⟩ := ih cur (pipeTextJR cur)
        (fun hc => by rw [hc]; exact hc)
      refine ⟨n + 1, Nat.succ_le_succ hn, ?_, fun hlt => ?_⟩
      · simp only [fixLoopJR]
        rw [if_neg he]
        rw [Function.iterate_succ_apply]
        exact h1
      · rw [Function.iterate_succ_apply]
        exact h2 (Nat.lt_of_succ_lt_succ hlt)

/-- C3: for every input, `fixJsonSyntax` equals some `n ≤ 5` iterations
of the pass sequence (quotes, commas — insertion then trailing removal —,
escapes, structure), a stop before the cap means the text reached a fixed
point of the full sequence, and on a failed initial parse `remediate`
holds exactly that text and succeeds exactly when the strict parse of it
succeeds; `fixJsonSyntax` of the final variant is the single pass
sequence. -/
theorem c3_bounded_iteration (t : String) :
    ∃ n ≤ 5, (fixJsonSyntaxJR t.data).1 = pipeTextJR^[n] t.data ∧
      (n < 5 → pipeTextJR (pipeTextJR^[n] t.data) = pipeTextJR^[n] t.data) ∧
      (jsonParse t = none →
        (remediateJR t).fixedJson = String.mk (fixJsonSyntaxJR t.data).1 ∧
          (remediateJR t).success =
            (jsonParse (String.mk (fixJsonSyntaxJR t.data).1)).isSome) ∧
      (fixJsonSyntaxFR t.data).1 =
        (fixMalformedStructuresFR
          (fixMissingQuotesFR
            (fixTrailingCommasFR (fixMissingCommasFR t.data).1).1).1).1 := by
  obtain ⟨n, hn, h1, h2⟩ := fixLoopJR_spec 5 [] t.data
    (fun hc => by rw [hc]; decide)
  refine ⟨n, hn, h1, h2, ?_, rfl⟩
  intro ht
  rcases hp : jsonParse (String.mk (fixJsonSyntaxJR t.data).1) with _ | v <;>
    simp [remediateJR, ht, hp]

/-- Witness for C3 at the input holding a lone opening brace. -/
theorem c3_bounded_iteration_witness :
    ∃ n ≤ 5, (fixJsonSyntaxJR "\x7b".data).1 = pipeTextJR^[n] "\x7b".data ∧
      (n < 5 → pipeTextJR (pipeTextJR^[n] "\x7b".data) = pipeTextJR^[n] "\x7b".data) ∧
      (jsonParse "\x7b" = none →
        (remediateJR "\x7b").fixedJson = String.mk (fixJsonSyntaxJR "\x7b".data).1 ∧
          (remediateJR "\x7b").success =
            (jsonParse (String.mk (fixJsonSyntaxJR "\x7b".data).1)).isSome) ∧
      (fixJsonSyntaxFR "\x7b".data).1 =
        (fixMalformedStructuresFR
          (fixMissingQuotesFR
            (fixTrailingCommasFR (fixMissingCommasFR "\x7b".data).1).1).1).1 :=
  c3_bounded_iteration "\x7b"

end Reynard

namespace Reynard

/-- The exception-model `remediate` never escapes an error: both parse
sites are inside try/catch. -/
theorem remediateE_ok (s : String) : remediateE s = Except.ok (remediateJR s) := by
  rcases hs : jsonParse s with _ | v
  · rcases hf : jsonParse (String.mk (fixJsonSyntaxJR s.data).1) with _ | w <;>
      simp [remediateE, remediateJR, jsonParseE, tryCatchE, hs, hf, remediationFailMsg]
  · simp [remediateE, remediateJR, jsonParseE, tryCatchE, hs]

/-- The exception-model `remediatePackageJson` never escapes an error:
its validation body (parse plus field accesses, which throw on a parsed
null) is inside try/catch. -/
theorem remediatePackageJsonE_ok (s : String) :
    remediatePackageJsonE s = Except.ok (remediatePackageJsonJR s) := by
  rw [remediatePackageJsonE, remediateE_ok s]
  rcases hs : jsonParse s with _ | v
  · rcases hf : jsonParse (String.mk (fixJsonSyntaxJR s.data).1) with _ | w
    · simp [remediateJR, remediatePackageJsonJR, hs, hf]
    · cases w <;>
        simp [remediateJR, remediatePackageJsonJR, hs, hf, tryCatchE, jsonParseE,
          withCatchE, withManifestE, manifestUnfixable, pkgValidationFailedMsg]
  · cases v <;>
      simp [remediateJR, remediatePackageJsonJR, hs, tryCatchE, jsonParseE,
        withCatchE, withManifestE]

/-- The exception-model final-variant `remediate` never escapes an
error. -/
theorem remediateFRE_ok (s : String) : remediateFRE s = Except.ok (remediateFR s) := by
  rcases hs : jsonParse s with _ | v
  · rcases hf : jsonParse (String.mk (fixJsonSyntaxFR s.data).1) with _ | w <;>
      simp [remediateFRE, remediateFR, jsonParseE, tryCatchE, hs, hf]
  · simp [remediateFRE, remediateFR, jsonParseE, tryCatchE, hs]

/-- The exception-model final-variant `remediatePackageJson` never
escapes an error. -/
theorem remediatePackageJsonFRE_ok (s : String) :
    remediatePackageJsonFRE s = Except.ok (remediatePackageJsonFR s) := by
  rw [remediatePackageJsonFRE, remediateFRE_ok s]
  rcases hs : jsonParse s with _ | v
  · rcases hf : jsonParse (String.mk (fixJsonSyntaxFR s.data).1) with _ | w
    · simp [remediateFR, remediatePackageJsonFR, hs, hf]
    · cases w <;>
        simp [remediateFR, remediatePackageJsonFR, hs, hf, tryCatchE, jsonParseE,
          frCatchUpdate, pkgValidationFailedMsg]
  · cases v <;>
      simp [remediateFR, remediatePackageJsonFR, hs, tryCatchE, jsonParseE,
        frCatchUpdate]

/-- C9: for every input string, `remediate` and the manifest variant of
both implementations return a result value and never let an exception
escape — in the explicit-exception model every entry point returns
`Except.ok` of the pure outcome, with all failure modes represented
inside the returned value. -/
theorem c9_never_throws (s : String) :
    remediateE s = Except.ok (remediateJR s) ∧
      remediatePackageJsonE s = Except.ok (remediatePackageJsonJR s) ∧
      remediateFRE s = Except.ok (remediateFR s) ∧
      remediatePackageJsonFRE s = Except.ok (remediatePackageJsonFR s) :=
  ⟨remediateE_ok s, remediatePackageJsonE_ok s, remediateFRE_ok s,
    remediatePackageJsonFRE_ok s⟩

end Reynard
